import Mathlib

/-!
Verification of the retrieval core of `brain-api-ed`:
`semantic_search.py` (search, filter_by_date_range, rerank, orchestrators)
and `answer_with_rag.py` (resolve_date_window_from_query).

Modelling conventions (shallow embedding):
* Python `datetime` values are modelled at second granularity by the record
  `DT` (proleptic-Gregorian fields, compared via the total second count
  `toSec`); `date.toordinal` is `toOrdinal` (ordinal 1 = 0001-01-01, a
  Monday), and `datetime ± timedelta` is `ofSec (toSec _ ± _)`.
* Python floats are modelled by `ℚ`; the claims settled here only compare
  score terms whose gaps are far larger than double rounding error.
* `datetime.now()` is passed explicitly as a `now : DT` argument.
* The FAISS index and the embedding backends are out of scope per the spec;
  an index response is an oracle `idx : ℕ → List (ℚ × Int)` mapping the
  fetch count to the `(distance, id)` rows returned for the query at hand,
  and the metadata side table is `md : Int → Option Meta`.
* A raised Python exception is modelled by `Except.error ()`.
-/

namespace BrainApi

/-- Leap year test, as in Python's `calendar.isleap` / `datetime`. -/
def isLeap (y : ℕ) : Bool :=
  y % 4 == 0 && (y % 100 != 0 || y % 400 == 0)

/-- 1 on leap years, 0 otherwise. -/
def leapN (y : ℕ) : ℕ := if isLeap y then 1 else 0

/-- Days in a month of year `y` (0 for an out-of-range month). -/
def daysInMonth (y m : ℕ) : ℕ :=
  match m with
  | 1 => 31 | 2 => 28 + leapN y | 3 => 31 | 4 => 30 | 5 => 31 | 6 => 30
  | 7 => 31 | 8 => 31 | 9 => 30 | 10 => 31 | 11 => 30 | 12 => 31 | _ => 0

/-- Days in year `y` strictly before month `m` (CPython `_days_before_month`). -/
def daysBeforeMonth (y m : ℕ) : ℕ :=
  match m with
  | 1 => 0 | 2 => 31 | 3 => 59 + leapN y | 4 => 90 + leapN y | 5 => 120 + leapN y
  | 6 => 151 + leapN y | 7 => 181 + leapN y | 8 => 212 + leapN y | 9 => 243 + leapN y
  | 10 => 273 + leapN y | 11 => 304 + leapN y | 12 => 334 + leapN y | _ => 0

/-- Days before January 1 of year `y` (CPython `_days_before_year`). -/
def daysBeforeYear (y : ℕ) : ℕ :=
  365 * (y - 1) + (y - 1) / 4 - (y - 1) / 100 + (y - 1) / 400

/-- Python `date(y, m, d).toordinal()`: 0001-01-01 is ordinal 1. -/
def toOrdinal (y m d : ℕ) : ℕ :=
  daysBeforeYear y + daysBeforeMonth y m + d

/-- Month and day from a 0-based day-of-year `doy` in year `y`. -/
def findMonth (y doy : ℕ) : ℕ × ℕ :=
  if doy < daysBeforeMonth y 2 then (1, doy + 1)
  else if doy < daysBeforeMonth y 3 then (2, doy - daysBeforeMonth y 2 + 1)
  else if doy < daysBeforeMonth y 4 then (3, doy - daysBeforeMonth y 3 + 1)
  else if doy < daysBeforeMonth y 5 then (4, doy - daysBeforeMonth y 4 + 1)
  else if doy < daysBeforeMonth y 6 then (5, doy - daysBeforeMonth y 5 + 1)
  else if doy < daysBeforeMonth y 7 then (6, doy - daysBeforeMonth y 6 + 1)
  else if doy < daysBeforeMonth y 8 then (7, doy - daysBeforeMonth y 7 + 1)
  else if doy < daysBeforeMonth y 9 then (8, doy - daysBeforeMonth y 8 + 1)
  else if doy < daysBeforeMonth y 10 then (9, doy - daysBeforeMonth y 9 + 1)
  else if doy < daysBeforeMonth y 11 then (10, doy - daysBeforeMonth y 10 + 1)
  else if doy < daysBeforeMonth y 12 then (11, doy - daysBeforeMonth y 11 + 1)
  else (12, doy - daysBeforeMonth y 12 + 1)

/-- Inverse of `toOrdinal` (CPython `_ord2ymd`): year, month, day of ordinal `n`. -/
def fromOrdinal (n : ℕ) : ℕ × ℕ × ℕ :=
  let n0 := n - 1
  let n400 := n0 / 146097
  let r1 := n0 % 146097
  let n100 := r1 / 36524
  let r2 := r1 % 36524
  let n4 := r2 / 1461
  let r3 := r2 % 1461
  let n1 := r3 / 365
  let r4 := r3 % 365
  let year := 400 * n400 + 100 * n100 + 4 * n4 + n1 + 1
  if n1 == 4 || n100 == 4 then (year - 1, 12, 31)
  else
    let md := findMonth year r4
    (year, md.1, md.2)

/-- Python `datetime` at second granularity. -/
structure DT where
  year : ℕ
  month : ℕ
  day : ℕ
  hour : ℕ
  minute : ℕ
  second : ℕ
deriving DecidableEq

/-- Total seconds since 0001-01-01 00:00:00 minus one day (ordinal 1 maps
to 86400); Python datetime comparison is comparison of these counts. -/
def toSec (t : DT) : ℕ :=
  86400 * toOrdinal t.year t.month t.day + 3600 * t.hour + 60 * t.minute + t.second

/-- Rebuild a `DT` from a second count (used for `datetime ± timedelta`). -/
def ofSec (n : ℕ) : DT :=
  let ymd := fromOrdinal (n / 86400)
  let sod := n % 86400
  ⟨ymd.1, ymd.2.1, ymd.2.2, sod / 3600, sod % 3600 / 60, sod % 60⟩

/-- Python `dt.weekday()`: Monday = 0 … Sunday = 6. -/
def weekdayOf (t : DT) : ℕ :=
  (toOrdinal t.year t.month t.day - 1) % 7

/-- Comparison `a <= b` on datetimes. -/
def dtle (a b : DT) : Bool := toSec a ≤ toSec b

/-- Strict comparison `a < b` on datetimes. -/
def dtlt (a b : DT) : Bool := toSec a < toSec b

/-- Python `datetime.max`, at second granularity. -/
def dtMax : DT := ⟨9999, 12, 31, 23, 59, 59⟩

/-- Fields are in the ranges Python `datetime` guarantees. -/
def ValidDT (t : DT) : Prop :=
  1 ≤ t.year ∧ t.year ≤ 9999 ∧ 1 ≤ t.month ∧ t.month ≤ 12 ∧
  1 ≤ t.day ∧ t.day ≤ daysInMonth t.year t.month ∧
  t.hour ≤ 23 ∧ t.minute ≤ 59 ∧ t.second ≤ 59

instance (t : DT) : Decidable (ValidDT t) := by
  unfold ValidDT; infer_instance

/-! ### String and pattern machinery

Character-level models of the Python string operations and of the three
regular expressions in `answer_with_rag.py`, restricted to their ASCII
behaviour (all patterns and the claims' inputs are ASCII). -/

/-- Python `str.lower`, character-wise. -/
def lowerChars (s : String) : List Char := s.toList.map Char.toLower

/-- Regex word character `\w` (ASCII part). -/
def isWordChar (c : Char) : Bool := c.isAlphanum || c == '_'

/-- Regex whitespace `\s` (ASCII part). -/
def isSpaceChar (c : Char) : Bool :=
  c == ' ' || c == '\t' || c == '\n' || c == '\r' || c == '\x0b' || c == '\x0c'

/-- Numeric value of a digit character. -/
def digitVal (c : Char) : ℕ := c.toNat - 48

/-- Python substring containment `needle in hay`. -/
def containsSub (needle : List Char) : List Char → Bool
  | [] => needle.isEmpty
  | c :: t => needle.isPrefixOf (c :: t) || containsSub needle t

/-- Word boundary `\b` before a word character, given the preceding character. -/
def boundaryB (prev : Option Char) : Bool :=
  match prev with
  | none => true
  | some c => !isWordChar c

/-- Word boundary `\b` after a word character, given the remaining input. -/
def endBoundary (rest : List Char) : Bool :=
  match rest with
  | [] => true
  | c :: _ => !isWordChar c

/-- Model of `re.search`: try `step` at every position, leftmost match wins;
`step` receives the character preceding the position (for `\b`). -/
def reSearch (step : Option Char → List Char → Option α) : Option Char → List Char → Option α
  | prev, [] => step prev []
  | prev, c :: rest =>
    match step prev (c :: rest) with
    | some v => some v
    | none => reSearch step (some c) rest

/-- Drop leading whitespace (`\s*`). -/
def skipSpaces (l : List Char) : List Char := l.dropWhile isSpaceChar

/-- Require at least one whitespace then drop the run (`\s+`). -/
def spaces1 (l : List Char) : Option (List Char) :=
  match l with
  | c :: t => if isSpaceChar c then some (skipSpaces t) else none
  | [] => none

/-- Match `20\d{2}` followed by `\b`; returns the year. -/
def year20 (l : List Char) : Option ℕ :=
  match l with
  | '2' :: '0' :: a :: b :: rest =>
    if a.isDigit && b.isDigit && endBoundary rest then
      some (2000 + 10 * digitVal a + digitVal b)
    else none
  | _ => none

/-- The month-name alternation of `_MONTHS`, in source order, with month numbers. -/
def monthNames : List (List Char × ℕ) :=
  [("january".toList, 1), ("february".toList, 2), ("march".toList, 3),
   ("april".toList, 4), ("may".toList, 5), ("june".toList, 6),
   ("july".toList, 7), ("august".toList, 8), ("september".toList, 9),
   ("october".toList, 10), ("november".toList, 11), ("december".toList, 12)]

/-- Try each month name as a prefix (regex alternation); none is a prefix of
another, so the first hit is the only hit. -/
def matchAlts (alts : List (List Char × ℕ)) (s : List Char) : Option (ℕ × List Char) :=
  match alts with
  | [] => none
  | (nm, k) :: rest =>
    if nm.isPrefixOf s then some (k, s.drop nm.length) else matchAlts rest s

/-- Attempt of the rule 4 pattern at one position:
`\b(january|...|december)\s+20\d{2}\b` on the lowercased query. -/
def monthStep (prev : Option Char) (s : List Char) : Option (ℕ × ℕ) :=
  if boundaryB prev then
    match matchAlts monthNames s with
    | some (mn, r1) =>
      match spaces1 r1 with
      | some r2 =>
        match year20 r2 with
        | some yr => some (mn, yr)
        | none => none
      | none => none
    | none => none
  else none

/-- Attempt of the `_Q_PAT` pattern at one position: `\bq([1-4])` then
optional whitespace, an optional single dash, slash or space separator,
optional whitespace again, then `(20\d{2})\b`, on the lowercased query. -/
def qStep (prev : Option Char) (s : List Char) : Option (ℕ × ℕ) :=
  if boundaryB prev then
    match s with
    | 'q' :: d :: rest =>
      if (d == '1' || d == '2' || d == '3' || d == '4') then
        let r1 := skipSpaces rest
        let r2 := match r1 with
          | c :: t => if c == '-' || c == '/' then skipSpaces t else r1
          | [] => r1
        match year20 r2 with
        | some yr => some (digitVal d, yr)
        | none => none
      else none
    | _ => none
  else none

/-- Match `\d{4}-\d{2}-\d{2}` and return `(year, month, day)` and the rest. -/
def isoTriple (l : List Char) : Option ((ℕ × ℕ × ℕ) × List Char) :=
  match l with
  | a :: b :: c :: d :: '-' :: e :: f :: '-' :: g :: i :: rest =>
    if a.isDigit && b.isDigit && c.isDigit && d.isDigit && e.isDigit && f.isDigit
        && g.isDigit && i.isDigit then
      some ((1000 * digitVal a + 100 * digitVal b + 10 * digitVal c + digitVal d,
             10 * digitVal e + digitVal f, 10 * digitVal g + digitVal i), rest)
    else none
  | _ => none

/-- Attempt of the rule 6 pattern at one position:
`\bfrom\s+(\d{4}-\d{2}-\d{2})\s+to\s+(\d{4}-\d{2}-\d{2})\b`. -/
def fromToStep (prev : Option Char) (s : List Char) :
    Option ((ℕ × ℕ × ℕ) × (ℕ × ℕ × ℕ)) :=
  if boundaryB prev && ("from".toList.isPrefixOf s) then
    match spaces1 (s.drop 4) with
    | some r1 =>
      match isoTriple r1 with
      | some (t1, r2) =>
        match spaces1 r2 with
        | some r3 =>
          if ("to".toList.isPrefixOf r3) then
            match spaces1 (r3.drop 2) with
            | some r4 =>
              match isoTriple r4 with
              | some (t2, r5) => if endBoundary r5 then some (t1, t2) else none
              | none => none
            | none => none
          else none
        | none => none
      | none => none
    | none => none
  else none

/-- Python `datetime.fromisoformat` on a `YYYY-MM-DD` capture: validates the
calendar ranges and raises (here: `none`) on an invalid date such as month 13. -/
def isoDate (t : ℕ × ℕ × ℕ) : Option DT :=
  if 1 ≤ t.1 ∧ t.1 ≤ 9999 ∧ 1 ≤ t.2.1 ∧ t.2.1 ≤ 12 ∧ 1 ≤ t.2.2 ∧
      t.2.2 ≤ daysInMonth t.1 t.2.1 then
    some ⟨t.1, t.2.1, t.2.2, 0, 0, 0⟩
  else none

/-! ### Date-window resolution (`answer_with_rag.py`) -/

/-- `_week_bounds`: Monday of the week of `dt` (keeping the time of day)
through that instant plus 6 days 23:59:59. -/
def _week_bounds (dt : DT) : DT × DT :=
  let start := ofSec (toSec dt - 86400 * weekdayOf dt)
  (start, ofSec (toSec start + (6 * 86400 + 23 * 3600 + 59 * 60 + 59)))

/-- `_month_bounds`: first of the month 00:00:00 through the next first-of-month
minus one second. -/
def _month_bounds (dt : DT) : DT × DT :=
  let start : DT := ⟨dt.year, dt.month, 1, 0, 0, 0⟩
  if dt.month == 12 then
    (start, ofSec (toSec (⟨dt.year + 1, 1, 1, 0, 0, 0⟩ : DT) - 1))
  else
    (start, ofSec (toSec (⟨dt.year, dt.month + 1, 1, 0, 0, 0⟩ : DT) - 1))

/-- `_quarter_bounds`: quarter start through next-quarter start minus one
second (Q4: December 31, 23:59:59). -/
def _quarter_bounds (q year : ℕ) : DT × DT :=
  let sm := match q with | 1 => 1 | 2 => 4 | 3 => 7 | _ => 10
  let start : DT := ⟨year, sm, 1, 0, 0, 0⟩
  if q < 4 then
    let em := match q with | 1 => 4 | 2 => 7 | _ => 10
    (start, ofSec (toSec (⟨year, em, 1, 0, 0, 0⟩ : DT) - 1))
  else
    (start, ⟨year, 12, 31, 23, 59, 59⟩)

/-- Rule 4 window: `datetime(year, mn, 1)` through next month minus one second. -/
def monthNameWindow (year mn : ℕ) : DT × DT :=
  let start : DT := ⟨year, mn, 1, 0, 0, 0⟩
  if mn == 12 then (start, ofSec (toSec (⟨year + 1, 1, 1, 0, 0, 0⟩ : DT) - 1))
  else (start, ofSec (toSec (⟨year, mn + 1, 1, 0, 0, 0⟩ : DT) - 1))

/-- `resolve_date_window_from_query`, with `datetime.now()` passed explicitly;
`Except.error ()` models a raised exception (`datetime.fromisoformat` on an
out-of-range capture of rule 6 — the only raising point). -/
def resolve_date_window_from_query (now : DT) (q : String) :
    Except Unit (Option (DT × DT)) :=
  let qlow := lowerChars q
  if containsSub ("today".toList) qlow then
    .ok (some ({now with hour := 0, minute := 0, second := 0},
               {now with hour := 23, minute := 59, second := 59}))
  else if containsSub ("yesterday".toList) qlow then
    let dt := ofSec (toSec now - 86400)
    .ok (some ({dt with hour := 0, minute := 0, second := 0},
               {dt with hour := 23, minute := 59, second := 59}))
  else if containsSub ("this week".toList) qlow then
    .ok (some (_week_bounds now))
  else if containsSub ("last week".toList) qlow then
    .ok (some (_week_bounds (ofSec (toSec now - 7 * 86400))))
  else if containsSub ("this month".toList) qlow then
    .ok (some (_month_bounds now))
  else if containsSub ("last month".toList) qlow then
    let lm0 := ofSec (toSec ({now with day := 1} : DT) - 86400)
    .ok (some (_month_bounds {lm0 with hour := 0, minute := 0, second := 0}))
  else
    match reSearch monthStep none qlow with
    | some (mn, yr) => .ok (some (monthNameWindow yr mn))
    | none =>
      match reSearch qStep none qlow with
      | some (qn, yr) => .ok (some (_quarter_bounds qn yr))
      | none =>
        match reSearch fromToStep none qlow with
        | some (t1, t2) =>
          match isoDate t1, isoDate t2 with
          | some s, some e0 =>
            .ok (some (s, {e0 with hour := 23, minute := 59, second := 59}))
          | _, _ => .error ()
        | none => .ok none

/-! ### Metadata and `_parse_iso` (`semantic_search.py`) -/

/-- The metadata fields of a chunk record that the retrieval core reads;
`none` models an absent dictionary key. -/
structure Meta where
  folder : Option String
  tags : Option (List String)
  meeting_date : Option String
  valid_from : Option String
  valid_to : Option String
deriving DecidableEq

/-- Metadata of an id missing from the side table (`metadata.get(i, {})`). -/
def emptyMeta : Meta := ⟨none, none, none, none, none⟩

/-- A search hit `(id, distance, metadata)`. -/
abbrev Cand : Type := Int × ℚ × Meta

/-- Numeric value of a two-digit pair. -/
def twoDigits (a b : Char) : ℕ := 10 * digitVal a + digitVal b

/-- Construct a datetime after Python-style range validation. -/
def mkValidDT (y mo d hh mi ss : ℕ) : Option DT :=
  if 1 ≤ y ∧ y ≤ 9999 ∧ 1 ≤ mo ∧ mo ≤ 12 ∧ 1 ≤ d ∧ d ≤ daysInMonth y mo ∧
      hh ≤ 23 ∧ mi ≤ 59 ∧ ss ≤ 59 then
    some ⟨y, mo, d, hh, mi, ss⟩
  else none

/-- Model of `datetime.fromisoformat` restricted to the shapes
`YYYY-MM-DD`, `YYYY-MM-DD[T ]HH`, `…HH:MM`, `…HH:MM:SS` (no fractional
seconds or offsets; no claim depends on the wider Python 3.11 grammar). -/
def fromIsoChars (l : List Char) : Option DT :=
  match l with
  | a :: b :: c :: d :: '-' :: e :: f :: '-' :: g :: i :: rest =>
    if a.isDigit && b.isDigit && c.isDigit && d.isDigit && e.isDigit && f.isDigit
        && g.isDigit && i.isDigit then
      let y := 1000 * digitVal a + 100 * digitVal b + 10 * digitVal c + digitVal d
      let mo := twoDigits e f
      let dy := twoDigits g i
      match rest with
      | [] => mkValidDT y mo dy 0 0 0
      | sep :: t =>
        if sep == 'T' || sep == ' ' then
          match t with
          | h1 :: h2 :: ':' :: m1 :: m2 :: ':' :: s1 :: s2 :: [] =>
            if h1.isDigit && h2.isDigit && m1.isDigit && m2.isDigit &&
                s1.isDigit && s2.isDigit then
              mkValidDT y mo dy (twoDigits h1 h2) (twoDigits m1 m2) (twoDigits s1 s2)
            else none
          | h1 :: h2 :: ':' :: m1 :: m2 :: [] =>
            if h1.isDigit && h2.isDigit && m1.isDigit && m2.isDigit then
              mkValidDT y mo dy (twoDigits h1 h2) (twoDigits m1 m2) 0
            else none
          | h1 :: h2 :: [] =>
            if h1.isDigit && h2.isDigit then mkValidDT y mo dy (twoDigits h1 h2) 0 0
            else none
          | _ => none
        else none
    else none
  | _ => none

/-- Day part of `strptime(s, "%Y-%m-%d")`: one or two digits ending the input. -/
def strpDay (y mo : ℕ) (l : List Char) : Option DT :=
  match l with
  | d1 :: d2 :: [] =>
    if d1.isDigit && d2.isDigit then mkValidDT y mo (twoDigits d1 d2) 0 0 0 else none
  | d1 :: [] =>
    if d1.isDigit then mkValidDT y mo (digitVal d1) 0 0 0 else none
  | _ => none

/-- Month-then-day part of `strptime`: `%m` is one or two digits. -/
def strpMonthDay (y : ℕ) (l : List Char) : Option DT :=
  match l with
  | m1 :: m2 :: '-' :: rest =>
    if m1.isDigit && m2.isDigit then strpDay y (twoDigits m1 m2) rest else none
  | m1 :: '-' :: rest =>
    if m1.isDigit then strpDay y (digitVal m1) rest else none
  | _ => none

/-- Model of `datetime.strptime(s, "%Y-%m-%d")`: the whole input must be
consumed and the date must be constructible. -/
def strptimeYmd (l : List Char) : Option DT :=
  match l with
  | a :: b :: c :: d :: '-' :: rest =>
    if a.isDigit && b.isDigit && c.isDigit && d.isDigit then
      strpMonthDay (1000 * digitVal a + 100 * digitVal b + 10 * digitVal c + digitVal d) rest
    else none
  | _ => none

/-- `_parse_iso`: `None`/empty give `none`; otherwise try `fromisoformat` on
the string with every `Z` removed, then `strptime("%Y-%m-%d")` on the first
ten characters; any failure gives `none`. -/
def _parse_iso (s : Option String) : Option DT :=
  match s with
  | none => none
  | some v =>
    if v.length == 0 then none
    else
      match fromIsoChars (v.toList.filter (fun c => c != 'Z')) with
      | some d => some d
      | none => strptimeYmd (v.toList.take 10)

/-! ### Temporal filter (`filter_by_date_range`) -/

/-- The `_overlap` helper: `a_start <= b_end and b_start <= a_end`. -/
def _overlap (aS aE bS bE : DT) : Bool := dtle aS bE && dtle bS aE

/-- Meetings path of the filter: `md and (start <= md <= end)`. -/
def keepMeeting (start e : DT) (m : Meta) : Bool :=
  match _parse_iso m.meeting_date with
  | some md => dtle start md && dtle md e
  | none => false

/-- Reminders path of the filter: `vf and _overlap(vf, vt or datetime.max, start, end)`. -/
def keepReminder (start e : DT) (m : Meta) : Bool :=
  match _parse_iso m.valid_from with
  | some vf => _overlap vf ((_parse_iso m.valid_to).getD dtMax) start e
  | none => false

/-- `filter_by_date_range`: keep hits whose meeting date lies in the window or
whose reminder validity interval overlaps it. -/
def filter_by_date_range (results : List Cand) (start e : DT) : List Cand :=
  match results with
  | [] => []
  | c :: rest =>
    if keepMeeting start e c.2.2 then c :: filter_by_date_range rest start e
    else if keepReminder start e c.2.2 then c :: filter_by_date_range rest start e
    else filter_by_date_range rest start e

/-! ### Reranking (`rerank`) -/

/-- `_query_tags` word-run extraction: maximal `[A-Za-z0-9_]+` runs. -/
def wordRunsAux (acc : List Char) : List Char → List (List Char)
  | [] => if acc.isEmpty then [] else [acc.reverse]
  | c :: t =>
    if isWordChar c then wordRunsAux (c :: acc) t
    else if acc.isEmpty then wordRunsAux [] t
    else acc.reverse :: wordRunsAux [] t

/-- `_query_tags`: alphanumeric tokens of the lowercased query of length ≥ 3. -/
def _query_tags (q : String) : List (List Char) :=
  (wordRunsAux [] (lowerChars q)).filter (fun t => 3 ≤ t.length)

/-- Normalization applied to each metadata tag: `t.strip().lower()`. -/
def tagNormalize (t : String) : List Char := t.trim.toList.map Char.toLower

/-- The record's tag set `{t.strip().lower() for t in (tags or []) if t}`. -/
def metaTags (m : Meta) : List (List Char) :=
  ((m.tags.getD []).filter (fun t => t ≠ "")).map tagNormalize

/-- `len(qtags.intersection(tags))`: distinct query tags present in the record tags. -/
def tag_overlap (q : String) (m : Meta) : ℕ :=
  ((_query_tags q).dedup.filter (fun t => (metaTags m).contains t)).length

/-- `str(meta.get("folder", "")).lower()`. -/
def folderOf (m : Meta) : List Char := (m.folder.getD "").toList.map Char.toLower

/-- Similarity-oriented base term: `1/(1+dist)` for L2, raw value for IP. -/
def base_score (metric : String) (dist : ℚ) : ℚ :=
  if metric = "l2" then 1 / (1 + dist) else dist

/-- `tag_bonus = 0.05 * tag_overlap`. -/
def tag_bonus (q : String) (m : Meta) : ℚ := (5 / 100) * tag_overlap q m

/-- `meet_bonus`: `mdate.toordinal() / 365000.0` when `prefer_recent` and the
meeting date parses, else 0. -/
def meet_bonus (prefer_recent : Bool) (m : Meta) : ℚ :=
  match prefer_recent, _parse_iso m.meeting_date with
  | true, some md => (toOrdinal md.year md.month md.day : ℚ) / 365000
  | _, _ => 0

/-- `folder_bonus`: `+0.2` for meetings under `prefer_meetings`, `+0.15` for
reminders unconditionally. -/
def folder_bonus (prefer_meetings : Bool) (folder : List Char) : ℚ :=
  (if prefer_meetings && folder == ("meetings".toList) then 1 / 5 else 0)
  + (if folder == ("reminders".toList) then 15 / 100 else 0)

/-- `validity_bonus` (reminders only): `+0.2` if `now` is inside
`[valid_from, valid_to]` (each bound only when it parses), else `-0.4`. -/
def validity_bonus (now : DT) (folder : List Char) (m : Meta) : ℚ :=
  if folder == ("reminders".toList) then
    let valid_now :=
      (match _parse_iso m.valid_from with
       | some vf => !(dtlt now vf)
       | none => true)
      && (match _parse_iso m.valid_to with
          | some vt => !(dtlt vt now)
          | none => true)
    if valid_now then 1 / 5 else -(2 / 5)
  else 0

/-- The scalar score of one hit inside `rerank`'s loop. -/
def scoreOf (metric : String) (now : DT) (q : String)
    (prefer_meetings prefer_recent : Bool) (c : Cand) : ℚ :=
  base_score metric c.2.1 + tag_bonus q c.2.2
    + folder_bonus prefer_meetings (folderOf c.2.2)
    + meet_bonus prefer_recent c.2.2
    + validity_bonus now (folderOf c.2.2) c.2.2

/-- Stable descending insertion: `x` goes before the first element whose key
is not larger; later-inserted (earlier-input) elements precede equals. -/
def insertD (key : α → ℚ) (x : α) : List α → List α
  | [] => [x]
  | y :: ys => if key y ≤ key x then x :: y :: ys else y :: insertD key x ys

/-- Stable sort, descending by `key`: the behaviour of Python
`list.sort(key=..., reverse=True)`. -/
def sortD (key : α → ℚ) : List α → List α
  | [] => []
  | x :: xs => insertD key x (sortD key xs)

/-- `rerank`: score every hit, then stable-sort descending by the score. -/
def rerank (metric : String) (now : DT) (results : List Cand) (q : String)
    (prefer_meetings prefer_recent : Bool) : List Cand :=
  let rescored := results.map
    (fun c => (scoreOf metric now q prefer_meetings prefer_recent c, c))
  (sortD (fun p : ℚ × Cand => p.1) rescored).map (fun p => p.2)

/-- `rerank_for_recency`: `rerank` with recency preferred, no category preference. -/
def rerank_for_recency (metric : String) (now : DT) (results : List Cand)
    (q : String) : List Cand :=
  rerank metric now results q false true

/-! ### Orchestrators -/

/-- `search`: query the index oracle with an inflated fetch count, drop the
`-1` sentinel rows, attach metadata and truncate to `k`. -/
def search (idx : ℕ → List (ℚ × Int)) (md : Int → Option Meta) (q : String)
    (k : ℕ) : List Cand :=
  let rows := idx (max k 100)
  (((rows.filter (fun p => p.2 != -1)).map
      (fun p => ((p.2, p.1, (md p.2).getD emptyMeta) : Cand))).take k)

/-- `search_meetings`: over-fetch, rerank with meetings preferred and recency
preferred, truncate. -/
def search_meetings (idx : ℕ → List (ℚ × Int)) (md : Int → Option Meta)
    (metric : String) (now : DT) (q : String) (k : ℕ) : List Cand :=
  let pool := search idx md q (max k 50)
  (rerank metric now pool q true true).take k

/-- `search_in_date_window`: over-fetch, filter by the window, return `[]` when
nothing survives, else rerank for recency and truncate. -/
def search_in_date_window (idx : ℕ → List (ℚ × Int)) (md : Int → Option Meta)
    (metric : String) (now : DT) (q : String) (start e : DT) (k : ℕ) : List Cand :=
  let pool := search idx md q (max k 200)
  let windowed := filter_by_date_range pool start e
  if windowed.isEmpty then []
  else (rerank_for_recency metric now windowed q).take k

/-! ### Claim-side definitions -/

/-- The temporal-filter contract predicate as the specification words it:
keep iff the event date lies in the window, or `valid_from` parses and
`[valid_from, valid_to_or_infinity]` overlaps the window. -/
def keptSpec (start e : DT) (c : Cand) : Bool :=
  (match _parse_iso c.2.2.meeting_date with
   | some md => dtle start md && dtle md e
   | none => false)
  ||
  (match _parse_iso c.2.2.valid_from with
   | some vf =>
     dtle vf e &&
       (match _parse_iso c.2.2.valid_to with
        | some vt => dtle start vt
        | none => true)
   | none => false)

/-- True when the query matches the literal `from … to …` rule with the first
date chronologically after the second. -/
def fromToReversed (q : String) : Bool :=
  match reSearch fromToStep none (lowerChars q) with
  | some (t1, t2) =>
    match isoDate t1, isoDate t2 with
    | some a, some b => dtlt b a
    | _, _ => false
  | none => false

/-- Replace a date string that fails to parse by an absent one. -/
def normDateField (s : Option String) : Option String :=
  match s with
  | some v => if (_parse_iso (some v)).isSome then some v else none
  | none => none

/-- Normalize metadata the way the code's defaults read it: missing folder as
empty string, missing tags as the empty list, unparsable dates as absent. -/
def normMeta (m : Meta) : Meta :=
  ⟨some (m.folder.getD ""), some (m.tags.getD []),
   normDateField m.meeting_date, normDateField m.valid_from, normDateField m.valid_to⟩

/-- `normMeta` on the metadata of a hit. -/
def normCand (c : Cand) : Cand := (c.1, c.2.1, normMeta c.2.2)

/-! ### Calendar lemmas -/

theorem findMonth_spec (y doy : ℕ) (m d : ℕ) (heq : findMonth y doy = (m, d)) :
    1 ≤ m ∧ m ≤ 12 ∧ 1 ≤ d ∧ daysBeforeMonth y m + d = doy + 1 := by
  have e1 : daysBeforeMonth y 1 = 0 := rfl
  unfold findMonth at heq
  by_cases h2 : doy < daysBeforeMonth y 2
  · rw [if_pos h2] at heq
    (injection heq with ha hb; subst ha; subst hb; exact ⟨by omega, by omega, by omega, by omega⟩)
  · rw [if_neg h2] at heq
    by_cases h3 : doy < daysBeforeMonth y 3
    · rw [if_pos h3] at heq
      (injection heq with ha hb; subst ha; subst hb; exact ⟨by omega, by omega, by omega, by omega⟩)
    · rw [if_neg h3] at heq
      by_cases h4 : doy < daysBeforeMonth y 4
      · rw [if_pos h4] at heq
        (injection heq with ha hb; subst ha; subst hb; exact ⟨by omega, by omega, by omega, by omega⟩)
      · rw [if_neg h4] at heq
        by_cases h5 : doy < daysBeforeMonth y 5
        · rw [if_pos h5] at heq
          (injection heq with ha hb; subst ha; subst hb; exact ⟨by omega, by omega, by omega, by omega⟩)
        · rw [if_neg h5] at heq
          by_cases h6 : doy < daysBeforeMonth y 6
          · rw [if_pos h6] at heq
            (injection heq with ha hb; subst ha; subst hb; exact ⟨by omega, by omega, by omega, by omega⟩)
          · rw [if_neg h6] at heq
            by_cases h7 : doy < daysBeforeMonth y 7
            · rw [if_pos h7] at heq
              (injection heq with ha hb; subst ha; subst hb; exact ⟨by omega, by omega, by omega, by omega⟩)
            · rw [if_neg h7] at heq
              by_cases h8 : doy < daysBeforeMonth y 8
              · rw [if_pos h8] at heq
                (injection heq with ha hb; subst ha; subst hb; exact ⟨by omega, by omega, by omega, by omega⟩)
              · rw [if_neg h8] at heq
                by_cases h9 : doy < daysBeforeMonth y 9
                · rw [if_pos h9] at heq
                  (injection heq with ha hb; subst ha; subst hb; exact ⟨by omega, by omega, by omega, by omega⟩)
                · rw [if_neg h9] at heq
                  by_cases h10 : doy < daysBeforeMonth y 10
                  · rw [if_pos h10] at heq
                    (injection heq with ha hb; subst ha; subst hb; exact ⟨by omega, by omega, by omega, by omega⟩)
                  · rw [if_neg h10] at heq
                    by_cases h11 : doy < daysBeforeMonth y 11
                    · rw [if_pos h11] at heq
                      (injection heq with ha hb; subst ha; subst hb; exact ⟨by omega, by omega, by omega, by omega⟩)
                    · rw [if_neg h11] at heq
                      by_cases h12 : doy < daysBeforeMonth y 12
                      · rw [if_pos h12] at heq
                        (injection heq with ha hb; subst ha; subst hb; exact ⟨by omega, by omega, by omega, by omega⟩)
                      · rw [if_neg h12] at heq
                        (injection heq with ha hb; subst ha; subst hb; exact ⟨by omega, by omega, by omega, by omega⟩)

theorem fromOrdinal_spec (n : ℕ) (h : 1 ≤ n) :
    1 ≤ (fromOrdinal n).1 ∧ 1 ≤ (fromOrdinal n).2.1 ∧ (fromOrdinal n).2.1 ≤ 12 ∧
    1 ≤ (fromOrdinal n).2.2 ∧
    toOrdinal (fromOrdinal n).1 (fromOrdinal n).2.1 (fromOrdinal n).2.2 = n := by
  simp only [fromOrdinal]
  generalize hn0g : n - 1 = n0
  have hsub : n0 + 1 = n := by omega
  generalize hn400g : n0 / 146097 = n400
  generalize hr1g : n0 % 146097 = r1
  generalize hn100g : r1 / 36524 = n100
  generalize hr2g : r1 % 36524 = r2
  generalize hn4g : r2 / 1461 = n4
  generalize hr3g : r2 % 1461 = r3
  generalize hn1g : r3 / 365 = n1
  generalize hr4g : r3 % 365 = r4
  have hdec : n0 = 146097 * n400 + 36524 * n100 + 1461 * n4 + 365 * n1 + r4 ∧
      r1 < 146097 ∧ r2 < 36524 ∧ r3 < 1461 ∧ r4 < 365 ∧
      r1 = 36524 * n100 + r2 ∧ r2 = 1461 * n4 + r3 ∧ r3 = 365 * n1 + r4 := by
    omega
  split
  · rename_i hcond
    simp only [Bool.or_eq_true, beq_iff_eq] at hcond
    refine ⟨by omega, by norm_num, by norm_num, by norm_num, ?_⟩
    simp only [toOrdinal, daysBeforeYear]
    have e12 : ∀ x, daysBeforeMonth x 12 = 334 + leapN x := fun _ => rfl
    rw [e12]
    simp only [leapN, isLeap]
    rcases hcond with hc | hc
    · subst hc
      have hb : n4 ≤ 23 ∧ n100 ≤ 3 ∧ r4 = 0 := by omega
      have hS4 : (400 * n400 + 100 * n100 + 4 * n4 + 4 + 1 - 1 - 1) / 4
          = 100 * n400 + 25 * n100 + n4 := by omega
      have hS100 : (400 * n400 + 100 * n100 + 4 * n4 + 4 + 1 - 1 - 1) / 100
          = 4 * n400 + n100 := by omega
      have hS400 : (400 * n400 + 100 * n100 + 4 * n4 + 4 + 1 - 1 - 1) / 400 = n400 := by omega
      rw [hS4, hS100, hS400]
      split
      · rename_i hli; simp at hli; omega
      · rename_i hli; simp at hli; omega
    · subst hc
      have hb : n4 = 0 ∧ n1 = 0 ∧ r4 = 0 := by omega
      have hS4 : (400 * n400 + 100 * 4 + 4 * n4 + n1 + 1 - 1 - 1) / 4
          = 100 * n400 + 99 := by omega
      have hS100 : (400 * n400 + 100 * 4 + 4 * n4 + n1 + 1 - 1 - 1) / 100
          = 4 * n400 + 3 := by omega
      have hS400 : (400 * n400 + 100 * 4 + 4 * n4 + n1 + 1 - 1 - 1) / 400 = n400 := by omega
      rw [hS4, hS100, hS400]
      split
      · rename_i hli; simp at hli; omega
      · rename_i hli; simp at hli; omega
  · rename_i hcond
    simp only [Bool.or_eq_true, beq_iff_eq] at hcond
    push_neg at hcond
    obtain ⟨m, d, hmd⟩ : ∃ m d, findMonth (400 * n400 + 100 * n100 + 4 * n4 + n1 + 1) r4 = (m, d) :=
      ⟨_, _, rfl⟩
    rw [hmd]
    have hfm := findMonth_spec _ _ _ _ hmd
    refine ⟨by omega, hfm.1, hfm.2.1, hfm.2.2.1, ?_⟩
    have hdm := hfm.2.2.2
    have hb : n4 ≤ 24 ∧ n1 ≤ 3 ∧ n100 ≤ 3 := by omega
    have hS4 : (400 * n400 + 100 * n100 + 4 * n4 + n1 + 1 - 1) / 4
        = 100 * n400 + 25 * n100 + n4 := by omega
    have hS100 : (400 * n400 + 100 * n100 + 4 * n4 + n1 + 1 - 1) / 100
        = 4 * n400 + n100 := by omega
    have hS400 : (400 * n400 + 100 * n100 + 4 * n4 + n1 + 1 - 1) / 400 = n400 := by omega
    simp only [toOrdinal, daysBeforeYear]
    rw [hS4, hS100, hS400]
    omega

/-- `ofSec` inverts `toSec` on any second count from ordinal day 1 onwards. -/
theorem toSec_ofSec (n : ℕ) (h : 86400 ≤ n) : toSec (ofSec n) = n := by
  have hord : 1 ≤ n / 86400 := by omega
  have hspec := fromOrdinal_spec (n / 86400) hord
  obtain ⟨y, m, d, hymd⟩ : ∃ y m d, fromOrdinal (n / 86400) = (y, m, d) := ⟨_, _, _, rfl⟩
  rw [hymd] at hspec
  simp only [ofSec, toSec, hymd]
  rw [hspec.2.2.2.2]
  omega

/-- The month field produced by `ofSec` is always in `[1, 12]` (and the day
and year are at least 1). -/
theorem ofSec_fields (n : ℕ) :
    1 ≤ (ofSec n).year ∧ 1 ≤ (ofSec n).month ∧ (ofSec n).month ≤ 12 ∧ 1 ≤ (ofSec n).day := by
  by_cases hord : 1 ≤ n / 86400
  · have hspec := fromOrdinal_spec (n / 86400) hord
    obtain ⟨y, m, d, hymd⟩ : ∃ y m d, fromOrdinal (n / 86400) = (y, m, d) := ⟨_, _, _, rfl⟩
    rw [hymd] at hspec
    simp only [ofSec, hymd]
    exact ⟨hspec.1, hspec.2.1, hspec.2.2.1, hspec.2.2.2.1⟩
  · have hz : n / 86400 = 0 := by omega
    simp only [ofSec, hz]
    exact ⟨by decide, by decide, by decide, by decide⟩

/-- The time-of-day fields produced by `ofSec` are in range. -/
theorem ofSec_time (n : ℕ) :
    (ofSec n).hour ≤ 23 ∧ (ofSec n).minute ≤ 59 ∧ (ofSec n).second ≤ 59 := by
  simp only [ofSec]
  omega

/-- Days-before-month is strictly monotone between consecutive months. -/
theorem daysBeforeMonth_lt (y m : ℕ) (h1 : 1 ≤ m) (h2 : m ≤ 11) :
    daysBeforeMonth y m < daysBeforeMonth y (m + 1) := by
  interval_cases m
  · show (0 : ℕ) < 31; omega
  · show (31 : ℕ) < 59 + leapN y; omega
  · show 59 + leapN y < 90 + leapN y; omega
  · show 90 + leapN y < 120 + leapN y; omega
  · show 120 + leapN y < 151 + leapN y; omega
  · show 151 + leapN y < 181 + leapN y; omega
  · show 181 + leapN y < 212 + leapN y; omega
  · show 212 + leapN y < 243 + leapN y; omega
  · show 243 + leapN y < 273 + leapN y; omega
  · show 273 + leapN y < 304 + leapN y; omega
  · show 304 + leapN y < 334 + leapN y; omega

/-- Ordinal of the first of the next month is strictly larger. -/
theorem toOrdinal_next_month (y m : ℕ) (h1 : 1 ≤ m) (h2 : m ≤ 11) :
    toOrdinal y m 1 < toOrdinal y (m + 1) 1 := by
  have := daysBeforeMonth_lt y m h1 h2
  simp only [toOrdinal]
  omega

/-- Ordinal of January 1 of the next year is strictly larger than December 1. -/
theorem toOrdinal_next_year (y : ℕ) (h : 1 ≤ y) :
    toOrdinal y 12 1 < toOrdinal (y + 1) 1 1 := by
  have e12 : daysBeforeMonth y 12 = 334 + leapN y := rfl
  have e1 : daysBeforeMonth (y + 1) 1 = 0 := rfl
  have hl : leapN y ≤ 1 := by unfold leapN; split <;> omega
  simp only [toOrdinal, daysBeforeYear, e12, e1]
  omega

/-- Ordinals stay positive. -/
theorem toOrdinal_pos (y m d : ℕ) (h : 1 ≤ d) : 1 ≤ toOrdinal y m d := by
  simp only [toOrdinal]; omega


/-! ### Stable-sort lemmas -/

theorem insertD_perm (key : α → ℚ) (x : α) (l : List α) :
    (insertD key x l).Perm (x :: l) := by
  induction l with
  | nil => simp [insertD]
  | cons y ys ih =>
    simp only [insertD]
    split
    · exact List.Perm.refl _
    · exact (ih.cons y).trans (List.Perm.swap x y ys)

theorem sortD_perm (key : α → ℚ) (l : List α) : (sortD key l).Perm l := by
  induction l with
  | nil => simp [sortD]
  | cons x xs ih => exact (insertD_perm key x (sortD key xs)).trans (ih.cons x)

theorem mem_insertD {key : α → ℚ} {x a : α} {l : List α}
    (h : a ∈ insertD key x l) : a = x ∨ a ∈ l :=
  List.mem_cons.mp ((insertD_perm key x l).mem_iff.mp h)

theorem insertD_pairwise {key : α → ℚ} (x : α) : ∀ {l : List α},
    l.Pairwise (fun a b => key b ≤ key a) →
    (insertD key x l).Pairwise (fun a b => key b ≤ key a) := by
  intro l h
  induction l with
  | nil => simp [insertD]
  | cons y ys ih =>
    rw [List.pairwise_cons] at h
    obtain ⟨hy, hys⟩ := h
    simp only [insertD]
    split
    · rename_i hcond
      refine List.Pairwise.cons ?_ (List.pairwise_cons.mpr ⟨hy, hys⟩)
      intro b hb
      rcases List.mem_cons.mp hb with rfl | hb
      · exact hcond
      · exact le_trans (hy b hb) hcond
    · rename_i hcond
      push_neg at hcond
      refine List.Pairwise.cons ?_ (ih hys)
      intro b hb
      rcases mem_insertD hb with rfl | hb
      · exact le_of_lt hcond
      · exact hy b hb

theorem sortD_pairwise (key : α → ℚ) (l : List α) :
    (sortD key l).Pairwise (fun a b => key b ≤ key a) := by
  induction l with
  | nil => simp [sortD]
  | cons x xs ih => exact insertD_pairwise x ih

theorem sortD_eq_of_pairwise {key : α → ℚ} : ∀ {l : List α},
    l.Pairwise (fun a b => key b ≤ key a) → sortD key l = l := by
  intro l h
  induction l with
  | nil => rfl
  | cons x xs ih =>
    rw [List.pairwise_cons] at h
    have htail := ih h.2
    simp only [sortD, htail]
    cases xs with
    | nil => rfl
    | cons y ys =>
      simp only [insertD]
      rw [if_pos (h.1 y (List.mem_cons_self y ys))]

theorem insertD_filter_eqkey {key : α → ℚ} {x : α} {v : ℚ} (hx : key x = v) :
    ∀ (l : List α), (insertD key x l).filter (fun a => decide (key a = v))
      = x :: l.filter (fun a => decide (key a = v)) := by
  intro l
  induction l with
  | nil => simp [insertD, hx]
  | cons y ys ih =>
    simp only [insertD]
    split
    · simp only [List.filter_cons, decide_eq_true_eq]
      rw [if_pos hx]
    · rename_i hcond
      push_neg at hcond
      have hy : ¬(key y = v) := by
        intro hyv
        rw [hx] at hcond
        rw [hyv] at hcond
        exact absurd hcond (lt_irrefl v)
      simp only [List.filter_cons, decide_eq_true_eq]
      rw [if_neg hy, if_neg hy, ih]

theorem insertD_filter_nekey {key : α → ℚ} {x : α} {v : ℚ} (hx : ¬(key x = v)) :
    ∀ (l : List α), (insertD key x l).filter (fun a => decide (key a = v))
      = l.filter (fun a => decide (key a = v)) := by
  intro l
  induction l with
  | nil => simp [insertD, hx]
  | cons y ys ih =>
    simp only [insertD]
    split
    · simp only [List.filter_cons, decide_eq_true_eq]
      rw [if_neg hx]
    · simp only [List.filter_cons, decide_eq_true_eq] at ih ⊢
      rw [ih]

theorem sortD_filter (key : α → ℚ) (v : ℚ) (l : List α) :
    (sortD key l).filter (fun a => decide (key a = v))
      = l.filter (fun a => decide (key a = v)) := by
  induction l with
  | nil => rfl
  | cons x xs ih =>
    simp only [sortD]
    by_cases hx : key x = v
    · rw [insertD_filter_eqkey hx, ih, List.filter_cons]
      simp only [decide_eq_true_eq]
      rw [if_pos hx]
    · rw [insertD_filter_nekey hx, ih, List.filter_cons]
      simp only [decide_eq_true_eq]
      rw [if_neg hx]

theorem insertD_map {β : Type} (f : β → α) (key : α → ℚ) (x : β) :
    ∀ (l : List β), insertD key (f x) (l.map f)
      = (insertD (fun b => key (f b)) x l).map f := by
  intro l
  induction l with
  | nil => rfl
  | cons y ys ih =>
    simp only [List.map_cons, insertD]
    by_cases hc : key (f y) ≤ key (f x)
    · rw [if_pos hc, if_pos hc]
      rfl
    · rw [if_neg hc, if_neg hc, List.map_cons, ih]

theorem sortD_map {β : Type} (f : β → α) (key : α → ℚ) (l : List β) :
    sortD key (l.map f) = (sortD (fun b => key (f b)) l).map f := by
  induction l with
  | nil => rfl
  | cons x xs ih =>
    simp only [List.map_cons, sortD, ih]
    exact insertD_map f key x (sortD (fun b => key (f b)) xs)

/-- `rerank` is exactly the stable descending sort of its input by `scoreOf`. -/
theorem rerank_eq (metric : String) (now : DT) (res : List Cand) (q : String)
    (pm pr : Bool) :
    rerank metric now res q pm pr = sortD (scoreOf metric now q pm pr) res := by
  simp only [rerank]
  rw [sortD_map (fun c => (scoreOf metric now q pm pr c, c)) (fun p => p.1) res]
  rw [List.map_map]
  exact List.map_id _

/-! ## Claim theorems -/

/-- C9: for every input candidate list, query text, and flag combination,
`rerank` returns a permutation of its input: every `(id, distance, metadata)`
triple appears exactly once, unchanged, and nothing else is produced —
reranking only reorders. -/
theorem rerank_is_permutation (metric : String) (now : DT) (res : List Cand)
    (q : String) (pm pr : Bool) : (rerank metric now res q pm pr).Perm res := by
  rw [rerank_eq]
  exact sortD_perm _ res

/-- C8: with the evaluation instant `now` and the configuration fixed,
`rerank`'s output is ordered non-increasing by the computed score, candidates
with equal scores keep their relative input order (stable sort), and `rerank`
is idempotent: reranking an already-reranked list with the same query and
flags yields the identical order. -/
theorem rerank_sorted_stable_idempotent (metric : String) (now : DT)
    (res : List Cand) (q : String) (pm pr : Bool) :
    (rerank metric now res q pm pr).Pairwise
        (fun a b => scoreOf metric now q pm pr b ≤ scoreOf metric now q pm pr a)
    ∧ (∀ v : ℚ, (rerank metric now res q pm pr).filter
          (fun c => decide (scoreOf metric now q pm pr c = v))
        = res.filter (fun c => decide (scoreOf metric now q pm pr c = v)))
    ∧ rerank metric now (rerank metric now res q pm pr) q pm pr
        = rerank metric now res q pm pr := by
  refine ⟨?_, ?_, ?_⟩
  · rw [rerank_eq]
    exact sortD_pairwise _ res
  · intro v
    rw [rerank_eq]
    exact sortD_filter _ v res
  · rw [rerank_eq, rerank_eq]
    exact sortD_eq_of_pairwise (sortD_pairwise _ res)

/-- C6: each of the three public operations returns at most `k` hits, whatever
the index oracle returns and however large the over-fetched pool is. -/
theorem results_length_le (idx : ℕ → List (ℚ × Int)) (md : Int → Option Meta)
    (metric : String) (now : DT) (q : String) (start e : DT) (k : ℕ) :
    (search idx md q k).length ≤ k
    ∧ (search_meetings idx md metric now q k).length ≤ k
    ∧ (search_in_date_window idx md metric now q start e k).length ≤ k := by
  refine ⟨?_, ?_, ?_⟩
  · simp only [search]
    exact List.length_take_le _ _
  · simp only [search_meetings]
    exact List.length_take_le _ _
  · simp only [search_in_date_window]
    split
    · simp
    · exact List.length_take_le _ _

/-- C7: when no candidate survives the temporal filter,
`search_in_date_window` returns the empty list — no exception, no fallback to
the unfiltered pool. -/
theorem search_in_date_window_empty_of_filter_empty (idx : ℕ → List (ℚ × Int))
    (md : Int → Option Meta) (metric : String) (now : DT) (q : String)
    (start e : DT) (k : ℕ)
    (h : filter_by_date_range (search idx md q (max k 200)) start e = []) :
    search_in_date_window idx md metric now q start e k = [] := by
  simp only [search_in_date_window, h]
  rfl

/-- Witness for C7 at a concrete index: one topical hit that carries neither a
meeting date nor a validity interval, filtered out by a far-future window. -/
theorem search_in_date_window_empty_witness :
    filter_by_date_range
        (search (fun _ => [((1 : ℚ) / 2, 7)])
          (fun _ => some ⟨some "notes", none, none, none, none⟩) "budget review"
          (max 5 200))
        ⟨2099, 1, 1, 0, 0, 0⟩ ⟨2099, 1, 2, 23, 59, 59⟩ = []
    ∧ search_in_date_window (fun _ => [((1 : ℚ) / 2, 7)])
        (fun _ => some ⟨some "notes", none, none, none, none⟩) "ip"
        ⟨2025, 9, 17, 12, 0, 0⟩ "budget review"
        ⟨2099, 1, 1, 0, 0, 0⟩ ⟨2099, 1, 2, 23, 59, 59⟩ 5 = [] :=
  ⟨rfl, search_in_date_window_empty_of_filter_empty _ _ "ip" ⟨2025, 9, 17, 12, 0, 0⟩
    "budget review" _ _ 5 rfl⟩

/-- C1 (code-bug evidence): for a meeting dated 2025-09-15 with
`prefer_recent` set, the recency bonus is `toordinal/365000 = 739509/365000`,
about 2.03 — larger than the 0.2 category-preference bonus and larger than
both validity magnitudes 0.2 and 0.4, although the code calls it a
"tiny boost" and the spec requires it to be the smallest term. -/
theorem recency_bonus_dominates :
    meet_bonus true (⟨some "meetings", none, some "2025-09-15", none, none⟩ : Meta)
        = 739509 / 365000
    ∧ folder_bonus true
        (folderOf (⟨some "meetings", none, some "2025-09-15", none, none⟩ : Meta)) = 1 / 5
    ∧ validity_bonus ⟨2025, 9, 17, 12, 0, 0⟩
        (folderOf (⟨some "reminders", none, none, some "2025-01-01", some "2025-12-31"⟩ : Meta))
        (⟨some "reminders", none, none, some "2025-01-01", some "2025-12-31"⟩ : Meta) = 1 / 5
    ∧ validity_bonus ⟨2025, 9, 17, 12, 0, 0⟩
        (folderOf (⟨some "reminders", none, none, some "2024-01-01", some "2024-02-01"⟩ : Meta))
        (⟨some "reminders", none, none, some "2024-01-01", some "2024-02-01"⟩ : Meta) = -(2 / 5)
    ∧ folder_bonus true
        (folderOf (⟨some "meetings", none, some "2025-09-15", none, none⟩ : Meta))
      < meet_bonus true (⟨some "meetings", none, some "2025-09-15", none, none⟩ : Meta)
    ∧ (2 / 5 : ℚ)
      < meet_bonus true (⟨some "meetings", none, some "2025-09-15", none, none⟩ : Meta) := by
  have h1 : meet_bonus true (⟨some "meetings", none, some "2025-09-15", none, none⟩ : Meta)
      = ((739509 : ℕ) : ℚ) / 365000 := rfl
  have h2 : folder_bonus true
      (folderOf (⟨some "meetings", none, some "2025-09-15", none, none⟩ : Meta))
      = (1 : ℚ) / 5 + 0 := rfl
  refine ⟨?_, ?_, ?_, ?_, ?_, ?_⟩
  · rw [h1]
    norm_num
  · rw [h2]
    norm_num
  · rfl
  · rfl
  · rw [h1, h2]
    norm_num
  · rw [h1]
    norm_num

/-- The code's two keep-paths together agree with the specification's
keep-predicate, provided `start` does not exceed `datetime.max` (which the
code uses in place of plus-infinity). -/
theorem keep_eq_keptSpec (start e : DT) (c : Cand)
    (hmax : toSec start ≤ toSec dtMax) :
    (keepMeeting start e c.2.2 || keepReminder start e c.2.2) = keptSpec start e c := by
  simp only [keepMeeting, keepReminder, keptSpec, _overlap]
  cases hmd : _parse_iso c.2.2.meeting_date <;>
    cases hvf : _parse_iso c.2.2.valid_from <;>
      cases hvt : _parse_iso c.2.2.valid_to <;>
        simp [dtle, hmax]

/-- C5: `filter_by_date_range` keeps a candidate if and only if its meeting
date parses into the window, or its `valid_from` parses and the interval
`[valid_from, valid_to-or-infinity]` overlaps the window; in particular a
candidate with neither an in-window event date nor a `valid_from` is dropped,
so a reminder lacking `valid_from` never matches any window. -/
theorem filter_by_date_range_spec (res : List Cand) (start e : DT)
    (hwin : toSec start ≤ toSec e) (hmax : toSec start ≤ toSec dtMax) :
    filter_by_date_range res start e = res.filter (keptSpec start e)
    ∧ ∀ c ∈ res, _parse_iso (c.2.2).valid_from = none →
        keepMeeting start e c.2.2 = false → c ∉ filter_by_date_range res start e := by
  have hfe : filter_by_date_range res start e = res.filter (keptSpec start e) := by
    induction res with
    | nil => rfl
    | cons c rest ih =>
      simp only [filter_by_date_range, List.filter_cons]
      rw [← keep_eq_keptSpec start e c hmax]
      by_cases h1 : keepMeeting start e c.2.2 = true
      · rw [if_pos h1]
        simp [h1, ih]
      · by_cases h2 : keepReminder start e c.2.2 = true
        · rw [if_neg h1, if_pos h2]
          simp only [Bool.not_eq_true] at h1
          simp [h1, h2, ih]
        · rw [if_neg h1, if_neg h2]
          simp only [Bool.not_eq_true] at h1 h2
          simp [h1, h2, ih]
  refine ⟨hfe, ?_⟩
  intro c hc hvf hkm
  rw [hfe]
  simp only [List.mem_filter]
  rintro ⟨-, hkept⟩
  rw [← keep_eq_keptSpec start e c hmax] at hkept
  rw [hkm] at hkept
  simp only [keepReminder, hvf, Bool.false_or] at hkept
  exact absurd hkept (by simp)

/-- Witness for C5 on the specification's own example data: a meeting inside
the window is kept, a January reminder overlaps the mid-January window, and a
hit without dates is dropped. -/
theorem filter_by_date_range_spec_witness :
    (toSec (⟨2025, 1, 15, 0, 0, 0⟩ : DT) ≤ toSec (⟨2025, 2, 1, 23, 59, 59⟩ : DT))
    ∧ (toSec (⟨2025, 1, 15, 0, 0, 0⟩ : DT) ≤ toSec dtMax)
    ∧ (filter_by_date_range
          [((1 : Int), (1 : ℚ) / 2, ⟨some "meetings", none, some "2025-01-20", none, none⟩),
           ((2 : Int), (1 : ℚ) / 3, ⟨some "reminders", none, none, some "2025-01-01", some "2025-01-31"⟩),
           ((3 : Int), (1 : ℚ) / 4, ⟨some "reminders", none, none, none, none⟩)]
          ⟨2025, 1, 15, 0, 0, 0⟩ ⟨2025, 2, 1, 23, 59, 59⟩
        = List.filter (keptSpec ⟨2025, 1, 15, 0, 0, 0⟩ ⟨2025, 2, 1, 23, 59, 59⟩)
            [((1 : Int), (1 : ℚ) / 2, ⟨some "meetings", none, some "2025-01-20", none, none⟩),
             ((2 : Int), (1 : ℚ) / 3, ⟨some "reminders", none, none, some "2025-01-01", some "2025-01-31"⟩),
             ((3 : Int), (1 : ℚ) / 4, ⟨some "reminders", none, none, none, none⟩)]
        ∧ ∀ c ∈ [((1 : Int), (1 : ℚ) / 2, (⟨some "meetings", none, some "2025-01-20", none, none⟩ : Meta)),
             ((2 : Int), (1 : ℚ) / 3, ⟨some "reminders", none, none, some "2025-01-01", some "2025-01-31"⟩),
             ((3 : Int), (1 : ℚ) / 4, ⟨some "reminders", none, none, none, none⟩)],
            _parse_iso (c.2.2).valid_from = none →
            keepMeeting ⟨2025, 1, 15, 0, 0, 0⟩ ⟨2025, 2, 1, 23, 59, 59⟩ c.2.2 = false →
            c ∉ filter_by_date_range
              [((1 : Int), (1 : ℚ) / 2, ⟨some "meetings", none, some "2025-01-20", none, none⟩),
               ((2 : Int), (1 : ℚ) / 3, ⟨some "reminders", none, none, some "2025-01-01", some "2025-01-31"⟩),
               ((3 : Int), (1 : ℚ) / 4, ⟨some "reminders", none, none, none, none⟩)]
              ⟨2025, 1, 15, 0, 0, 0⟩ ⟨2025, 2, 1, 23, 59, 59⟩) :=
  ⟨by decide, by decide,
   filter_by_date_range_spec _ _ _ (by decide) (by decide)⟩

/-- Parsing is invariant under replacing an unparsable date string by an
absent one. -/
theorem parse_iso_norm (s : Option String) :
    _parse_iso (normDateField s) = _parse_iso s := by
  cases s with
  | none => rfl
  | some v =>
    by_cases hp : (_parse_iso (some v)).isSome
    · simp [normDateField, hp]
    · simp only [normDateField, hp, if_neg]
      rw [Option.not_isSome_iff_eq_none.mp hp]
      rfl

/-- Scores are invariant under metadata normalization. -/
theorem scoreOf_norm (metric : String) (now : DT) (q : String) (pm pr : Bool)
    (c : Cand) :
    scoreOf metric now q pm pr (normCand c) = scoreOf metric now q pm pr c := by
  obtain ⟨rid, dist, m⟩ := c
  have hmd : (normMeta m).meeting_date = normDateField m.meeting_date := rfl
  have hvf : (normMeta m).valid_from = normDateField m.valid_from := rfl
  have hvt : (normMeta m).valid_to = normDateField m.valid_to := rfl
  have hfo : folderOf (normMeta m) = folderOf m := rfl
  have htg : metaTags (normMeta m) = metaTags m := rfl
  simp only [scoreOf, normCand, tag_bonus, tag_overlap, meet_bonus, validity_bonus,
    hmd, hvf, hvt, hfo, htg, parse_iso_norm]

/-- The meetings keep-path is invariant under metadata normalization. -/
theorem keepMeeting_norm (start e : DT) (m : Meta) :
    keepMeeting start e (normMeta m) = keepMeeting start e m := by
  have hmd : (normMeta m).meeting_date = normDateField m.meeting_date := rfl
  simp only [keepMeeting, hmd, parse_iso_norm]

/-- The reminders keep-path is invariant under metadata normalization. -/
theorem keepReminder_norm (start e : DT) (m : Meta) :
    keepReminder start e (normMeta m) = keepReminder start e m := by
  have hvf : (normMeta m).valid_from = normDateField m.valid_from := rfl
  have hvt : (normMeta m).valid_to = normDateField m.valid_to := rfl
  simp only [keepReminder, hvf, hvt, parse_iso_norm]

/-- C10: `rerank` and `filter_by_date_range` are total over malformed or
missing metadata and treat it exactly as the defaults say: an unparsable or
absent date string behaves as an absent date, missing tags as the empty set,
and a missing folder as the empty string — normalizing the metadata that way
commutes with both operations and changes nothing else. -/
theorem rerank_filter_malformed_metadata (metric : String) (now : DT)
    (res : List Cand) (q : String) (pm pr : Bool) (start e : DT) :
    rerank metric now (res.map normCand) q pm pr
        = (rerank metric now res q pm pr).map normCand
    ∧ filter_by_date_range (res.map normCand) start e
        = (filter_by_date_range res start e).map normCand := by
  constructor
  · rw [rerank_eq, rerank_eq,
      sortD_map normCand (scoreOf metric now q pm pr) res,
      funext (scoreOf_norm metric now q pm pr)]
  · induction res with
    | nil => rfl
    | cons c rest ih =>
      simp only [List.map_cons, filter_by_date_range]
      have h2 : (normCand c).2.2 = normMeta c.2.2 := rfl
      rw [h2, keepMeeting_norm, keepReminder_norm]
      by_cases h1 : keepMeeting start e c.2.2 = true
      · rw [if_pos h1, if_pos h1, ih, List.map_cons]
      · by_cases hr : keepReminder start e c.2.2 = true
        · rw [if_neg h1, if_neg h1, if_pos hr, if_pos hr, ih, List.map_cons]
        · rw [if_neg h1, if_neg h1, if_neg hr, if_neg hr, ih]

/-! ### Window lemmas for the resolver -/

/-- Weekday of a rebuilt datetime, in terms of its day ordinal. -/
theorem weekdayOf_ofSec (X : ℕ) (h : 86400 ≤ X) :
    weekdayOf (ofSec X) = (X / 86400 - 1) % 7 := by
  have hord1 : 1 ≤ X / 86400 := by omega
  have hspec := fromOrdinal_spec _ hord1
  obtain ⟨y, m, d, hymd⟩ : ∃ y m d, fromOrdinal (X / 86400) = (y, m, d) := ⟨_, _, _, rfl⟩
  rw [hymd] at hspec
  simp only [weekdayOf, ofSec, hymd]
  rw [hspec.2.2.2.2]

/-- The week window never ends before it starts. -/
theorem week_bounds_le (dt : DT) :
    toSec (_week_bounds dt).1 ≤ toSec (_week_bounds dt).2 := by
  simp only [_week_bounds]
  have h := toSec_ofSec
    (toSec (ofSec (toSec dt - 86400 * weekdayOf dt)) + (6 * 86400 + 23 * 3600 + 59 * 60 + 59))
    (by omega)
  rw [h]
  omega

/-- Exact description of `_week_bounds` for an instant with in-range time
fields from the eighth day onwards: the start falls on a Monday, it is the
reference instant minus its weekday in days, and the end is exactly
6 days 23:59:59 later. -/
theorem week_bounds_spec (dt : DT) (hd : 1 ≤ dt.day) (hh : dt.hour ≤ 23)
    (hmi : dt.minute ≤ 59) (hs : dt.second ≤ 59) (hlow : 604800 ≤ toSec dt) :
    weekdayOf (_week_bounds dt).1 = 0
    ∧ toSec (_week_bounds dt).1 = toSec dt - 86400 * weekdayOf dt
    ∧ toSec (_week_bounds dt).2 = toSec (_week_bounds dt).1 + 604799 := by
  have hwd : weekdayOf dt < 7 := Nat.mod_lt _ (by norm_num)
  have harg : 86400 ≤ toSec dt - 86400 * weekdayOf dt := by omega
  have hstart : toSec (_week_bounds dt).1 = toSec dt - 86400 * weekdayOf dt := by
    simp only [_week_bounds]
    exact toSec_ofSec _ harg
  refine ⟨?_, hstart, ?_⟩
  · have hred : weekdayOf (_week_bounds dt).1
        = ((toSec dt - 86400 * weekdayOf dt) / 86400 - 1) % 7 := by
      simp only [_week_bounds]
      exact weekdayOf_ofSec _ harg
    rw [hred]
    have hded : toSec dt = 86400 * toOrdinal dt.year dt.month dt.day
        + 3600 * dt.hour + 60 * dt.minute + dt.second := rfl
    have hwdef : weekdayOf dt = (toOrdinal dt.year dt.month dt.day - 1) % 7 := rfl
    have hop : 1 ≤ toOrdinal dt.year dt.month dt.day := toOrdinal_pos _ _ _ hd
    omega
  · simp only [_week_bounds]
    rw [toSec_ofSec _ (by omega)]

/-- A calendar-month window (rule 4 shape) never ends before it starts. -/
theorem monthNameWindow_le (yr mn : ℕ) (h1 : 1 ≤ mn) (h2 : mn ≤ 12) (h3 : 1 ≤ yr) :
    toSec (monthNameWindow yr mn).1 ≤ toSec (monthNameWindow yr mn).2 := by
  simp only [monthNameWindow]
  split
  · rename_i hc
    simp only [beq_iff_eq] at hc
    subst hc
    have hnext := toOrdinal_next_year yr h3
    have hpos : 1 ≤ toOrdinal yr 12 1 := toOrdinal_pos _ _ _ (by norm_num)
    have hT : toSec (⟨yr + 1, 1, 1, 0, 0, 0⟩ : DT) = 86400 * toOrdinal (yr + 1) 1 1 := by
      simp [toSec]
    rw [toSec_ofSec _ (by rw [hT]; omega)]
    rw [hT]
    simp only [toSec]
    omega
  · rename_i hc
    have hm11 : mn ≤ 11 := by
      simp only [beq_iff_eq] at hc
      omega
    have hnext := toOrdinal_next_month yr mn h1 hm11
    have hpos : 1 ≤ toOrdinal yr mn 1 := toOrdinal_pos _ _ _ (by norm_num)
    have hT : toSec (⟨yr, mn + 1, 1, 0, 0, 0⟩ : DT) = 86400 * toOrdinal yr (mn + 1) 1 := by
      simp [toSec]
    rw [toSec_ofSec _ (by rw [hT]; omega)]
    rw [hT]
    simp only [toSec]
    omega

/-- `_month_bounds` is the rule 4 window shape at the record's own fields. -/
theorem month_bounds_eq (dt : DT) :
    _month_bounds dt = monthNameWindow dt.year dt.month := rfl

/-- A quarter window never ends before it starts. -/
theorem quarter_bounds_le (qn yr : ℕ) (h1 : 1 ≤ qn) (h2 : qn ≤ 4) (h3 : 1 ≤ yr) :
    toSec (_quarter_bounds qn yr).1 ≤ toSec (_quarter_bounds qn yr).2 := by
  have b1 : daysBeforeMonth yr 1 = 0 := rfl
  have b4 : daysBeforeMonth yr 4 = 90 + leapN yr := rfl
  have b7 : daysBeforeMonth yr 7 = 181 + leapN yr := rfl
  have b10 : daysBeforeMonth yr 10 = 273 + leapN yr := rfl
  have b12 : daysBeforeMonth yr 12 = 334 + leapN yr := rfl
  have hl : leapN yr ≤ 1 := by
    unfold leapN
    split <;> omega
  interval_cases qn
  · have hq : _quarter_bounds 1 yr
        = (⟨yr, 1, 1, 0, 0, 0⟩, ofSec (toSec (⟨yr, 4, 1, 0, 0, 0⟩ : DT) - 1)) := rfl
    rw [hq]
    have hT : toSec (⟨yr, 4, 1, 0, 0, 0⟩ : DT) = 86400 * toOrdinal yr 4 1 := by
      simp [toSec]
    have hS : toSec (⟨yr, 1, 1, 0, 0, 0⟩ : DT) = 86400 * toOrdinal yr 1 1 := by
      simp [toSec]
    have hOrd : 2 ≤ toOrdinal yr 4 1 := by
      simp only [toOrdinal, b4]
      omega
    have h2 := toSec_ofSec (toSec (⟨yr, 4, 1, 0, 0, 0⟩ : DT) - 1) (by rw [hT]; omega)
    rw [h2, hT, hS]
    simp only [toOrdinal, b1, b4]
    omega
  · have hq : _quarter_bounds 2 yr
        = (⟨yr, 4, 1, 0, 0, 0⟩, ofSec (toSec (⟨yr, 7, 1, 0, 0, 0⟩ : DT) - 1)) := rfl
    rw [hq]
    have hT : toSec (⟨yr, 7, 1, 0, 0, 0⟩ : DT) = 86400 * toOrdinal yr 7 1 := by
      simp [toSec]
    have hS : toSec (⟨yr, 4, 1, 0, 0, 0⟩ : DT) = 86400 * toOrdinal yr 4 1 := by
      simp [toSec]
    have hOrd : 2 ≤ toOrdinal yr 7 1 := by
      simp only [toOrdinal, b7]
      omega
    have h2 := toSec_ofSec (toSec (⟨yr, 7, 1, 0, 0, 0⟩ : DT) - 1) (by rw [hT]; omega)
    rw [h2, hT, hS]
    simp only [toOrdinal, b4, b7]
    omega
  · have hq : _quarter_bounds 3 yr
        = (⟨yr, 7, 1, 0, 0, 0⟩, ofSec (toSec (⟨yr, 10, 1, 0, 0, 0⟩ : DT) - 1)) := rfl
    rw [hq]
    have hT : toSec (⟨yr, 10, 1, 0, 0, 0⟩ : DT) = 86400 * toOrdinal yr 10 1 := by
      simp [toSec]
    have hS : toSec (⟨yr, 7, 1, 0, 0, 0⟩ : DT) = 86400 * toOrdinal yr 7 1 := by
      simp [toSec]
    have hOrd : 2 ≤ toOrdinal yr 10 1 := by
      simp only [toOrdinal, b10]
      omega
    have h2 := toSec_ofSec (toSec (⟨yr, 10, 1, 0, 0, 0⟩ : DT) - 1) (by rw [hT]; omega)
    rw [h2, hT, hS]
    simp only [toOrdinal, b7, b10]
    omega
  · have hq : _quarter_bounds 4 yr
        = (⟨yr, 10, 1, 0, 0, 0⟩, ⟨yr, 12, 31, 23, 59, 59⟩) := rfl
    rw [hq]
    have hS : toSec (⟨yr, 10, 1, 0, 0, 0⟩ : DT) = 86400 * toOrdinal yr 10 1 := by
      simp [toSec]
    have hE : toSec (⟨yr, 12, 31, 23, 59, 59⟩ : DT)
        = 86400 * toOrdinal yr 12 31 + 3600 * 23 + 60 * 59 + 59 := by
      simp [toSec]
    rw [hS, hE]
    simp only [toOrdinal, b10, b12]
    omega

/-! ### Matcher lemmas -/

/-- A successful alternation match returns a value paired in the table. -/
theorem matchAlts_mem : ∀ {alts : List (List Char × ℕ)} {s : List Char} {k : ℕ}
    {r : List Char}, matchAlts alts s = some (k, r) → ∃ nm, (nm, k) ∈ alts := by
  intro alts
  induction alts with
  | nil =>
    intro s k r h
    simp [matchAlts] at h
  | cons p rest ih =>
    intro s k r h
    obtain ⟨nm, k2⟩ := p
    simp only [matchAlts] at h
    split at h
    · simp only [Option.some.injEq, Prod.mk.injEq] at h
      exact ⟨nm, by rw [← h.1]; exact List.mem_cons_self _ _⟩
    · obtain ⟨nm2, hm⟩ := ih h
      exact ⟨nm2, List.mem_cons_of_mem _ hm⟩

/-- A year matched as `20` plus two digits is at least 2000. -/
theorem year20_ge {l : List Char} {yr : ℕ} (h : year20 l = some yr) : 2000 ≤ yr := by
  unfold year20 at h
  split at h
  · split at h
    · simp only [Option.some.injEq] at h
      omega
    · exact absurd h (by simp)
  · exact absurd h (by simp)

/-- Month numbers stored in the alternation table are between 1 and 12. -/
theorem monthNames_snd_bounds {nm : List Char} {k : ℕ} (h : (nm, k) ∈ monthNames) :
    1 ≤ k ∧ k ≤ 12 := by
  fin_cases h <;> exact ⟨by norm_num, by norm_num⟩

/-- Bounds carried by any successful month-rule match. -/
theorem monthStep_bounds {prev : Option Char} {s : List Char} {v : ℕ × ℕ}
    (h : monthStep prev s = some v) : 1 ≤ v.1 ∧ v.1 ≤ 12 ∧ 2000 ≤ v.2 := by
  simp only [monthStep] at h
  split at h
  · split at h
    · rename_i mn r1 hma
      split at h
      · rename_i r2 hsp
        split at h
        · rename_i yr hy
          simp only [Option.some.injEq] at h
          subst h
          obtain ⟨nm, hmem⟩ := matchAlts_mem hma
          have hyr := year20_ge hy
          have hbm := monthNames_snd_bounds hmem
          exact ⟨hbm.1, hbm.2, hyr⟩
        · exact absurd h (by simp)
      · exact absurd h (by simp)
    · exact absurd h (by simp)
  · exact absurd h (by simp)

/-- Bounds carried by any successful quarter-rule match. -/
theorem qStep_bounds {prev : Option Char} {s : List Char} {v : ℕ × ℕ}
    (h : qStep prev s = some v) : 1 ≤ v.1 ∧ v.1 ≤ 4 ∧ 2000 ≤ v.2 := by
  simp only [qStep] at h
  split at h
  · split at h
    · split at h
      · rename_i hd
        split at h
        · rename_i yr hy
          simp only [Option.some.injEq] at h
          subst h
          have hyr := year20_ge hy
          simp only [Bool.or_eq_true, beq_iff_eq] at hd
          rcases hd with ((rfl | rfl) | rfl) | rfl <;>
            exact ⟨by show (1 : ℕ) ≤ digitVal _; decide,
                   by show digitVal _ ≤ 4; decide, hyr⟩
        · exact absurd h (by simp)
      · exact absurd h (by simp)
    · exact absurd h (by simp)
  · exact absurd h (by simp)

/-- Transport a per-attempt property through the position scan. -/
theorem reSearch_bounds {α : Type} {step : Option Char → List Char → Option α}
    {P : α → Prop} (hstep : ∀ p s v, step p s = some v → P v) :
    ∀ (p : Option Char) (l : List Char) (v : α), reSearch step p l = some v → P v := by
  intro p l
  induction l generalizing p with
  | nil =>
    intro v h
    simp only [reSearch] at h
    exact hstep _ _ _ h
  | cons c rest ih =>
    intro v h
    simp only [reSearch] at h
    cases hs : step p (c :: rest) with
    | some w =>
      rw [hs] at h
      simp only [Option.some.injEq] at h
      subst h
      exact hstep _ _ _ hs
    | none =>
      rw [hs] at h
      exact ih _ _ h

/-- Shape of a value produced by the `fromisoformat` model on a date capture. -/
theorem isoDate_some {t : ℕ × ℕ × ℕ} {a : DT} (h : isoDate t = some a) :
    a.hour = 0 ∧ a.minute = 0 ∧ a.second = 0 ∧ 1 ≤ a.day := by
  simp only [isoDate] at h
  split at h
  · rename_i hcond
    simp only [Option.some.injEq] at h
    subst h
    exact ⟨rfl, rfl, rfl, hcond.2.2.2.2.1⟩
  · exact absurd h (by simp)

/-- The last-month window (floor-of-day of a rebuilt instant) is ordered. -/
theorem last_month_window_le (X : ℕ) :
    toSec (_month_bounds ({ofSec X with hour := 0, minute := 0, second := 0})).1
      ≤ toSec (_month_bounds ({ofSec X with hour := 0, minute := 0, second := 0})).2 := by
  have hf := ofSec_fields X
  rw [month_bounds_eq]
  exact monthNameWindow_le _ _ hf.2.1 hf.2.2.1 hf.1

/-- Floor-of-day never exceeds end-of-day on the same calendar day. -/
theorem dayFloor_le (d0 : DT) :
    toSec ({d0 with hour := 0, minute := 0, second := 0} : DT)
      ≤ toSec ({d0 with hour := 23, minute := 59, second := 59} : DT) := by
  simp only [toSec]
  omega

/-- C3 counterexample: the literal from-to rule returns the dates as given, so
"from 2025-05-10 to 2025-01-01" yields a window whose end precedes its start —
the claimed invariant `start ≤ end` fails on this rule. -/
theorem resolve_from_to_reversed_counterexample :
    resolve_date_window_from_query ⟨2025, 9, 17, 15, 30, 0⟩
        "from 2025-05-10 to 2025-01-01"
      = .ok (some (⟨2025, 5, 10, 0, 0, 0⟩, ⟨2025, 1, 1, 23, 59, 59⟩))
    ∧ toSec (⟨2025, 1, 1, 23, 59, 59⟩ : DT) < toSec (⟨2025, 5, 10, 0, 0, 0⟩ : DT) := by
  constructor
  · rfl
  · decide

/-- C3 amended: every window returned by `resolve_date_window_from_query`
satisfies `start ≤ end`, except those produced by the literal from-to rule
with the first date chronologically after the second; under the assumption
that the query's from-to match (if any) is not reversed, the invariant holds
for every rule. -/
theorem resolve_window_start_le_end (q : String) (now : DT) (hv : ValidDT now)
    (hrev : fromToReversed q = false) (s e : DT)
    (hres : resolve_date_window_from_query now q = .ok (some (s, e))) :
    toSec s ≤ toSec e := by
  obtain ⟨hvy1, hvy2, hvm1, hvm2, hvd1, hvd2, hvh, hvmi, hvs⟩ := hv
  simp only [resolve_date_window_from_query] at hres
  by_cases h1 : containsSub ("today".toList) (lowerChars q) = true
  · rw [if_pos h1] at hres
    simp only [Except.ok.injEq, Option.some.injEq, Prod.mk.injEq] at hres
    obtain ⟨rfl, rfl⟩ := hres
    exact dayFloor_le now
  · rw [if_neg h1] at hres
    by_cases h2 : containsSub ("yesterday".toList) (lowerChars q) = true
    · rw [if_pos h2] at hres
      simp only [Except.ok.injEq, Option.some.injEq, Prod.mk.injEq] at hres
      obtain ⟨rfl, rfl⟩ := hres
      exact dayFloor_le _
    · rw [if_neg h2] at hres
      by_cases h3 : containsSub ("this week".toList) (lowerChars q) = true
      · rw [if_pos h3] at hres
        simp only [Except.ok.injEq, Option.some.injEq] at hres
        have hle := week_bounds_le now
        rw [hres] at hle
        exact hle
      · rw [if_neg h3] at hres
        by_cases h4 : containsSub ("last week".toList) (lowerChars q) = true
        · rw [if_pos h4] at hres
          simp only [Except.ok.injEq, Option.some.injEq] at hres
          have hle := week_bounds_le (ofSec (toSec now - 7 * 86400))
          rw [hres] at hle
          exact hle
        · rw [if_neg h4] at hres
          by_cases h5 : containsSub ("this month".toList) (lowerChars q) = true
          · rw [if_pos h5] at hres
            simp only [Except.ok.injEq, Option.some.injEq] at hres
            have hle : toSec (_month_bounds now).1 ≤ toSec (_month_bounds now).2 := by
              rw [month_bounds_eq]
              exact monthNameWindow_le now.year now.month hvm1 hvm2 hvy1
            rw [hres] at hle
            exact hle
          · rw [if_neg h5] at hres
            by_cases h6 : containsSub ("last month".toList) (lowerChars q) = true
            · rw [if_pos h6] at hres
              simp only [Except.ok.injEq, Option.some.injEq] at hres
              have hle := last_month_window_le (toSec ({now with day := 1} : DT) - 86400)
              rw [hres] at hle
              exact hle
            · rw [if_neg h6] at hres
              split at hres
              · rename_i mn yr hmn
                have hb := reSearch_bounds (fun p s v h => monthStep_bounds h) _ _ _ hmn
                simp only [Except.ok.injEq, Option.some.injEq] at hres
                have hle := monthNameWindow_le yr mn hb.1 hb.2.1 (by omega)
                rw [hres] at hle
                exact hle
              · split at hres
                · rename_i qn yr hqn
                  have hb := reSearch_bounds (fun p s v h => qStep_bounds h) _ _ _ hqn
                  simp only [Except.ok.injEq, Option.some.injEq] at hres
                  have hle := quarter_bounds_le qn yr hb.1 hb.2.1 (by omega)
                  rw [hres] at hle
                  exact hle
                · split at hres
                  · rename_i t1 t2 hft
                    split at hres
                    · rename_i a b hia hib
                      simp only [Except.ok.injEq, Option.some.injEq, Prod.mk.injEq] at hres
                      obtain ⟨rfl, rfl⟩ := hres
                      simp only [fromToReversed, hft, hia, hib] at hrev
                      have hab : ¬ (toSec b < toSec a) := by
                        simpa [dtlt] using hrev
                      obtain ⟨ha1, ha2, ha3, -⟩ := isoDate_some hia
                      obtain ⟨hb1, hb2, hb3, -⟩ := isoDate_some hib
                      simp only [toSec] at hab ⊢
                      omega
                    · exact absurd hres (by simp)
                  · exact absurd hres (by simp)

/-- C4 (code-bug evidence): a malformed date reference that matches the
from-to shape makes the resolver raise instead of returning none — month 13
sends `datetime.fromisoformat` into a ValueError that propagates out of
`resolve_date_window_from_query` uncaught. -/
theorem resolve_raises_on_malformed_from_to :
    resolve_date_window_from_query ⟨2025, 9, 17, 15, 30, 0⟩
        "from 2025-13-01 to 2025-01-15" = .error () := rfl

/-- C2 counterexample: at reference instant Wednesday 2025-09-17 15:30:00 the
query "this week" yields a window starting Monday 15:30:00 — not 00:00:00 —
and ending Monday 2025-09-22 15:29:59, which is not a Sunday, refuting the
claimed Monday-00:00:00 / Sunday-23:59:59 bounds. -/
theorem this_week_not_midnight_counterexample :
    resolve_date_window_from_query ⟨2025, 9, 17, 15, 30, 0⟩ "this week"
        = .ok (some (⟨2025, 9, 15, 15, 30, 0⟩, ⟨2025, 9, 22, 15, 29, 59⟩))
    ∧ (⟨2025, 9, 15, 15, 30, 0⟩ : DT).hour ≠ 0
    ∧ weekdayOf ⟨2025, 9, 22, 15, 29, 59⟩ ≠ 6 := by
  refine ⟨rfl, by decide, by decide⟩

/-- C2 amended: a query containing "this week" (and no earlier-rule phrase)
resolves to `_week_bounds now`: the start falls on the Monday of the current
week but carries the reference instant's own time of day, and the end is
exactly 6 days 23:59:59 after the start (so it is Sunday 23:59:59 only when
the reference time is midnight); "last week" first shifts the reference
instant back 7 days and then applies the same bounds. -/
theorem week_window_amended (q : String) (now : DT) (hv : ValidDT now)
    (hlow : 1209600 ≤ toSec now) :
    (containsSub ("today".toList) (lowerChars q) = false →
     containsSub ("yesterday".toList) (lowerChars q) = false →
     containsSub ("this week".toList) (lowerChars q) = true →
     resolve_date_window_from_query now q = .ok (some (_week_bounds now))
       ∧ weekdayOf (_week_bounds now).1 = 0
       ∧ toSec (_week_bounds now).1 = toSec now - 86400 * weekdayOf now
       ∧ toSec (_week_bounds now).2 = toSec (_week_bounds now).1 + 604799)
    ∧ (containsSub ("today".toList) (lowerChars q) = false →
       containsSub ("yesterday".toList) (lowerChars q) = false →
       containsSub ("this week".toList) (lowerChars q) = false →
       containsSub ("last week".toList) (lowerChars q) = true →
       resolve_date_window_from_query now q
           = .ok (some (_week_bounds (ofSec (toSec now - 7 * 86400))))
         ∧ weekdayOf (_week_bounds (ofSec (toSec now - 7 * 86400))).1 = 0
         ∧ toSec (_week_bounds (ofSec (toSec now - 7 * 86400))).1
             = (toSec now - 7 * 86400)
               - 86400 * weekdayOf (ofSec (toSec now - 7 * 86400))
         ∧ toSec (_week_bounds (ofSec (toSec now - 7 * 86400))).2
             = toSec (_week_bounds (ofSec (toSec now - 7 * 86400))).1 + 604799) := by
  obtain ⟨hvy1, hvy2, hvm1, hvm2, hvd1, hvd2, hvh, hvmi, hvs⟩ := hv
  constructor
  · intro h1 h2 h3
    have hw := week_bounds_spec now hvd1 hvh hvmi hvs (by omega)
    refine ⟨?_, hw.1, hw.2.1, hw.2.2⟩
    simp only [resolve_date_window_from_query]
    rw [if_neg (by rw [h1]; decide), if_neg (by rw [h2]; decide), if_pos h3]
  · intro h1 h2 h3 h4
    have htS : toSec (ofSec (toSec now - 7 * 86400)) = toSec now - 7 * 86400 :=
      toSec_ofSec _ (by omega)
    have hfd := ofSec_fields (toSec now - 7 * 86400)
    have htm := ofSec_time (toSec now - 7 * 86400)
    have hw := week_bounds_spec (ofSec (toSec now - 7 * 86400))
      hfd.2.2.2 htm.1 htm.2.1 htm.2.2 (by rw [htS]; omega)
    refine ⟨?_, hw.1, ?_, hw.2.2⟩
    · simp only [resolve_date_window_from_query]
      rw [if_neg (by rw [h1]; decide), if_neg (by rw [h2]; decide), if_neg (by rw [h3]; decide), if_pos h4]
    · rw [hw.2.1, htS]

/-- Witness for the amended C2 at the concrete reference instant
Wednesday 2025-09-17 15:30:00 and the query "plan for this week". -/
theorem week_window_amended_witness :
    ValidDT ⟨2025, 9, 17, 15, 30, 0⟩
    ∧ 1209600 ≤ toSec (⟨2025, 9, 17, 15, 30, 0⟩ : DT)
    ∧ ((containsSub ("today".toList) (lowerChars "plan for this week") = false →
        containsSub ("yesterday".toList) (lowerChars "plan for this week") = false →
        containsSub ("this week".toList) (lowerChars "plan for this week") = true →
        resolve_date_window_from_query ⟨2025, 9, 17, 15, 30, 0⟩ "plan for this week"
            = .ok (some (_week_bounds ⟨2025, 9, 17, 15, 30, 0⟩))
          ∧ weekdayOf (_week_bounds ⟨2025, 9, 17, 15, 30, 0⟩).1 = 0
          ∧ toSec (_week_bounds ⟨2025, 9, 17, 15, 30, 0⟩).1
              = toSec (⟨2025, 9, 17, 15, 30, 0⟩ : DT)
                - 86400 * weekdayOf ⟨2025, 9, 17, 15, 30, 0⟩
          ∧ toSec (_week_bounds ⟨2025, 9, 17, 15, 30, 0⟩).2
              = toSec (_week_bounds ⟨2025, 9, 17, 15, 30, 0⟩).1 + 604799)
       ∧ (containsSub ("today".toList) (lowerChars "plan for this week") = false →
          containsSub ("yesterday".toList) (lowerChars "plan for this week") = false →
          containsSub ("this week".toList) (lowerChars "plan for this week") = false →
          containsSub ("last week".toList) (lowerChars "plan for this week") = true →
          resolve_date_window_from_query ⟨2025, 9, 17, 15, 30, 0⟩ "plan for this week"
              = .ok (some (_week_bounds
                  (ofSec (toSec (⟨2025, 9, 17, 15, 30, 0⟩ : DT) - 7 * 86400))))
            ∧ weekdayOf (_week_bounds
                (ofSec (toSec (⟨2025, 9, 17, 15, 30, 0⟩ : DT) - 7 * 86400))).1 = 0
            ∧ toSec (_week_bounds
                (ofSec (toSec (⟨2025, 9, 17, 15, 30, 0⟩ : DT) - 7 * 86400))).1
                = (toSec (⟨2025, 9, 17, 15, 30, 0⟩ : DT) - 7 * 86400)
                  - 86400 * weekdayOf
                      (ofSec (toSec (⟨2025, 9, 17, 15, 30, 0⟩ : DT) - 7 * 86400))
            ∧ toSec (_week_bounds
                (ofSec (toSec (⟨2025, 9, 17, 15, 30, 0⟩ : DT) - 7 * 86400))).2
                = toSec (_week_bounds
                    (ofSec (toSec (⟨2025, 9, 17, 15, 30, 0⟩ : DT) - 7 * 86400))).1
                  + 604799)) :=
  ⟨by decide, by decide,
   week_window_amended "plan for this week" ⟨2025, 9, 17, 15, 30, 0⟩ (by decide) (by decide)⟩

/-- Witness for the amended C3: a valid reference instant, a query whose
from-to match is not reversed, and the resolved window's bounds in order. -/
theorem resolve_window_start_le_end_witness :
    ValidDT ⟨2025, 9, 17, 15, 30, 0⟩
    ∧ fromToReversed "from 2025-01-10 to 2025-01-15" = false
    ∧ resolve_date_window_from_query ⟨2025, 9, 17, 15, 30, 0⟩
        "from 2025-01-10 to 2025-01-15"
        = .ok (some (⟨2025, 1, 10, 0, 0, 0⟩, ⟨2025, 1, 15, 23, 59, 59⟩))
    ∧ toSec (⟨2025, 1, 10, 0, 0, 0⟩ : DT) ≤ toSec (⟨2025, 1, 15, 23, 59, 59⟩ : DT) :=
  ⟨by decide, rfl, rfl,
   resolve_window_start_le_end "from 2025-01-10 to 2025-01-15"
     ⟨2025, 9, 17, 15, 30, 0⟩ (by decide) rfl
     ⟨2025, 1, 10, 0, 0, 0⟩ ⟨2025, 1, 15, 23, 59, 59⟩ rfl⟩

end BrainApi
